import Mathlib

/-!
# auth0-cli: the app import reconciler and the actions helpers

A shallow embedding of

* `internal/cli/importcmd/apps.go`: `ImportChanges`, `ImportApps`,
  `distributeAppOperations`;
* `internal/cli/actions.go`: `action`, `trigger`, `statusCurrent`, `listActions`,
  `getActionByName`, `listActionsTriggers`.

Go values are modelled as follows.

* A Go `error` is a `GoError` carrying its message; "no error" (`nil`) is `none`.
* A Go slice that may be `nil` is a `GoSlice α`, `none` being the `nil` slice.
* A Go `map[string]App` is a `GoMap`: a list of bindings with one binding per key.
  Go leaves the iteration order of a map unspecified, so the theorems speak about
  lookups (`mapGet`), key membership (`mapHas`) and the number of entries (`mapLen`).
* `doReq` performs an HTTP request: its outcome (the error it returns and the payload it
  decodes) is a parameter. The functions whose bodies the source leaves empty (`getAllApps`,
  `mapYamlToApps`, `diffApps`, `appsMapToSlice`, `processAppOperations`) are parameters too.
-/

namespace Auth0Cli

/-! ## Go values -/

/-- A Go `error` value, identified by its message. -/
structure GoError where
  msg : String
  deriving DecidableEq, Repr

/-- A Go slice that may be `nil`: `none` is `nil`, `some l` a non-nil slice. -/
abbrev GoSlice (α : Type) := Option (List α)

/-- The elements a `range` loop visits: none for a `nil` slice. -/
def GoSlice.elems {α : Type} : GoSlice α → List α
  | none => []
  | some l => l

/-! ## `importcmd/apps.go` -/

/-- Modelled from the spec: the declaration of the type `App` is missing from the source,
which only uses its method `GetName`. Following the spec's resource model, an app has an
identity key (`Name`), a mapping from field names to field values (`Fields`) and an optional
remote identifier (`ID`). -/
structure App where
  Name : String
  Fields : List (String × String)
  ID : Option String
  deriving DecidableEq, Repr

/-- The method `GetName` of `App`. -/
def App.GetName (a : App) : String := a.Name

/-- A Go `map[string]App`. -/
abbrev GoMap := List (String × App)

/-- The lookup `m[k]` with its `ok` flag: `none` when `k` is not a key. -/
def mapGet : GoMap → String → Option App
  | [], _ => none
  | (k', v) :: m, k => if k' = k then some v else mapGet m k

/-- The test `_, ok := m[k]`. -/
def mapHas (m : GoMap) (k : String) : Bool := (mapGet m k).isSome

/-- The assignment `m[k] = v`: replaces the binding of `k`, or adds one. -/
def mapSet : GoMap → String → App → GoMap
  | [], k, v => [(k, v)]
  | (k', v') :: m, k, v => if k' = k then (k, v) :: m else (k', v') :: mapSet m k v

/-- The number of entries `len(m)`. -/
def mapLen (m : GoMap) : Nat := m.length

/-- The keys of a map. -/
def mapKeys (m : GoMap) : List String := m.map Prod.fst

/-- The last app of a list that carries the name `k`, if any: the app a sequence of
assignments `m[a.GetName()] = a` along the list leaves under the key `k`. -/
def lastNamed : List App → String → Option App
  | [], _ => none
  | a :: l, k =>
    match lastNamed l k with
    | some b => some b
    | none => if a.GetName = k then some a else none

/-- The struct `ImportChanges`. -/
structure ImportChanges where
  Creates : Nat
  Updates : Nat
  Deletes : Nat
  deriving DecidableEq, Repr

/-- The first loop of `distributeAppOperations`: `creates[newApp.GetName()] = newApp` for
each new app in turn. -/
def indexApps (newApps : List App) (creates : GoMap) : GoMap :=
  newApps.foldl (fun m newApp => mapSet m newApp.GetName newApp) creates

/-- One iteration of the second loop of `distributeAppOperations`, on the pair
`(updates, deletes)`. -/
def distributeStep (creates : GoMap) (ud : GoMap × GoMap) (existingApp : App) :
    GoMap × GoMap :=
  if mapHas creates existingApp.GetName then
    (mapSet ud.1 existingApp.GetName existingApp, ud.2)
  else
    (ud.1, mapSet ud.2 existingApp.GetName existingApp)

/-- The function `distributeAppOperations`, returning `(creates, updates, deletes)`. -/
def distributeAppOperations (existingApps newApps : List App) : GoMap × GoMap × GoMap :=
  let creates := indexApps newApps []
  let ud := existingApps.foldl (distributeStep creates) ([], [])
  (creates, ud.1, ud.2)

/-- The function `ImportApps`. The functions it calls whose bodies the source leaves empty
are parameters: `getAllApps` is the outcome of `cli.getAllApps(ctx)`, `mapYamlToApps` the
result of `mapYamlToApps(yaml)`, and `diffApps`, `appsMapToSlice`, `processAppOperations`
are the functions of those names (`processAppOperations` returns its error, if any). -/
def ImportApps (getAllApps : List App × Option GoError) (mapYamlToApps : List App)
    (diffApps : GoMap → GoMap → GoMap) (appsMapToSlice : GoMap → List App)
    (processAppOperations : List App → List App → List App → Option GoError) :
    ImportChanges × Option GoError :=
  match getAllApps.2 with
  | some err => (⟨0, 0, 0⟩, some err)
  | none =>
    let existingApps := getAllApps.1
    let newApps := mapYamlToApps
    let (createsMap, updatesMap, deletesMap) := distributeAppOperations existingApps newApps
    let updatesMap := diffApps updatesMap createsMap
    let createsSlice := appsMapToSlice createsMap
    let updatesSlice := appsMapToSlice updatesMap
    let deletesSlice := appsMapToSlice deletesMap
    match processAppOperations createsSlice updatesSlice deletesSlice with
    | some err => (⟨0, 0, 0⟩, some err)
    | none => (⟨createsSlice.length, updatesSlice.length, deletesSlice.length⟩, none)

/-! ## `cli/actions.go` -/

/-- The struct `action`. -/
structure action where
  ID : String
  Name : String
  deriving DecidableEq, Repr

/-- The struct `trigger`. -/
structure trigger where
  ID : String
  Status : String
  Version : String
  deriving DecidableEq, Repr

/-- The constant `statusCurrent`. -/
def statusCurrent : String := "CURRENT"

/-- The zero value `action{}`. -/
def action.zero : action := ⟨"", ""⟩

/-- The method `listActions`. The parameter `doReq` is the outcome of the call
`c.doReq(ctx, http.MethodGet, path, nil, &payload)`: the error it returns and the value it
leaves in `payload.Actions`. -/
def listActions (doReq : Option GoError × GoSlice action) : GoSlice action × Option GoError :=
  match doReq.1 with
  | some err => (none, some err)
  | none => (doReq.2, none)

/-- The loop of `getActionByName`: the first action whose `Name` is `name`, if any. -/
def getActionByName.loop (name : String) : List action → Option action
  | [] => none
  | a :: rest => if a.Name = name then some a else getActionByName.loop name rest

/-- The method `getActionByName`; `doReq` is as in `listActions`. -/
def getActionByName (doReq : Option GoError × GoSlice action) (name : String) :
    action × Option GoError :=
  match listActions doReq with
  | (_, some err) => (action.zero, some err)
  | (actions, none) =>
    match getActionByName.loop name actions.elems with
    | some a => (a, none)
    | none => (action.zero, some ⟨"Unable to find action with name: " ++ name⟩)

/-- The method `listActionsTriggers`. The parameter `doReq` is the outcome of the call to
`c.doReq`: the error it returns and the value it leaves in `payload.Triggers`. -/
def listActionsTriggers (doReq : Option GoError × GoSlice trigger) :
    GoSlice trigger × Option GoError :=
  match doReq.1 with
  | some err => (none, some err)
  | none =>
    let result := doReq.2.elems.foldl
      (fun result tt => if tt.Status = statusCurrent then result ++ [tt] else result) []
    (some result, none)

/-! ## Example inputs -/

/-- The existing app `A`, at version `v1`, with its remote identifier. -/
def appA1 : App := ⟨"A", [("version", "v1")], some "id-a"⟩

/-- The desired app `A`, at version `v2`; a desired app has no remote identifier. -/
def appA2 : App := ⟨"A", [("version", "v2")], none⟩

/-- The existing app `B`. -/
def appB : App := ⟨"B", [], some "id-b"⟩

/-- The desired app `C`. -/
def appC : App := ⟨"C", [], none⟩

/-- A second existing app that is also named `A`, under another remote identifier. -/
def appA1Twin : App := ⟨"A", [("version", "v1")], some "id-a-twin"⟩

/-- The first of two desired apps named `app-a`. -/
def dupFirst : App := ⟨"app-a", [("description", "first")], none⟩

/-- The second of two desired apps named `app-a`. -/
def dupSecond : App := ⟨"app-a", [("description", "second")], none⟩

/-- An existing app named `app-a`. -/
def dupRemote : App := ⟨"app-a", [("description", "remote")], some "id-app-a"⟩

/-- An existing app named `App`. -/
def appUpper : App := ⟨"App", [], some "id-app"⟩

/-- A desired app named `app`. -/
def appLower : App := ⟨"app", [], none⟩

/-- A desired app named `app-a`, of which `app` is a proper initial segment. -/
def appLonger : App := ⟨"app-a", [], none⟩

/-- Scenario for `ImportApps`: an `appsMapToSlice` that lists the values of the map. -/
def scenarioSlice (m : GoMap) : List App := m.map Prod.snd

/-- Scenario for `ImportApps`: a `diffApps` that keeps every update candidate. -/
def scenarioDiff (updatesMap _createsMap : GoMap) : GoMap := updatesMap

/-- Scenario for `ImportApps`: whether the remote accepts an operation on the app `a`; it
rejects the deletion of `B` and accepts every other operation. -/
def scenarioAccepts (isDelete : Bool) (a : App) : Bool := !(isDelete && a.GetName == "B")

/-- Scenario for `ImportApps`: a `processAppOperations` that attempts every operation and
reports an error when the remote rejected one of them. -/
def scenarioProcess (creates updates deletes : List App) : Option GoError :=
  if creates.all (scenarioAccepts false) && updates.all (scenarioAccepts false)
      && deletes.all (scenarioAccepts true) then none
  else some ⟨"operation failed"⟩

/-- Scenario for `ImportApps`: the numbers of creates, updates and deletes the remote
accepted. -/
def scenarioSucceeded (creates updates deletes : List App) : ImportChanges :=
  ⟨(creates.filter (scenarioAccepts false)).length,
   (updates.filter (scenarioAccepts false)).length,
   (deletes.filter (scenarioAccepts true)).length⟩

/-- An action list with two actions named `deploy`. -/
def sampleActions : List action := [⟨"act-1", "build"⟩, ⟨"act-2", "deploy"⟩, ⟨"act-3", "deploy"⟩]

/-- A trigger list with two current triggers around a deprecated one. -/
def sampleTriggers : List trigger :=
  [⟨"post-login", "CURRENT", "v2"⟩, ⟨"post-login", "DEPRECATED", "v1"⟩,
   ⟨"pre-user-registration", "CURRENT", "v1"⟩]

/-! ## Maps: lookups, keys and sizes -/

theorem mapGet_mapSet (m : GoMap) (k : String) (v : App) (k' : String) :
    mapGet (mapSet m k v) k' = if k = k' then some v else mapGet m k' := by
  induction m with
  | nil => simp [mapSet, mapGet]
  | cons p m ih =>
    obtain ⟨k0, v0⟩ := p
    by_cases h : k0 = k
    · subst h
      by_cases h' : k0 = k' <;> simp [mapSet, mapGet, h']
    · by_cases h' : k0 = k'
      · subst h'
        simp [mapSet, mapGet, h, Ne.symm h]
      · simp [mapSet, mapGet, h, h', ih]

theorem mem_mapKeys_iff (m : GoMap) (k : String) : k ∈ mapKeys m ↔ mapHas m k = true := by
  induction m with
  | nil => simp [mapKeys, mapHas, mapGet]
  | cons p m ih =>
    obtain ⟨k0, v0⟩ := p
    by_cases h : k0 = k
    · simp [mapKeys, mapHas, mapGet, h]
    · have ih' : k ∈ List.map Prod.fst m ↔ (mapGet m k).isSome = true := ih
      simp [mapKeys, mapHas, mapGet, h, Ne.symm h, ih']

theorem mapKeys_mapSet (m : GoMap) (k : String) (v : App) :
    mapKeys (mapSet m k v) = if k ∈ mapKeys m then mapKeys m else mapKeys m ++ [k] := by
  induction m with
  | nil => simp [mapSet, mapKeys]
  | cons p m ih =>
    obtain ⟨k0, v0⟩ := p
    by_cases h : k0 = k
    · simp [mapSet, mapKeys, h]
    · have ih' : List.map Prod.fst (mapSet m k v)
          = if k ∈ List.map Prod.fst m then List.map Prod.fst m
            else List.map Prod.fst m ++ [k] := ih
      by_cases hk : k ∈ List.map Prod.fst m
      · simp [mapSet, mapKeys, h, Ne.symm h, ih', hk]
      · simp [mapSet, mapKeys, h, Ne.symm h, ih', hk]

theorem mapKeys_mapSet_nodup (m : GoMap) (k : String) (v : App) (h : (mapKeys m).Nodup) :
    (mapKeys (mapSet m k v)).Nodup := by
  rw [mapKeys_mapSet]
  split
  · exact h
  · rename_i hk
    exact List.Nodup.append h (List.nodup_singleton k) (by simpa using hk)

/-! ## The last app carrying a name -/

theorem lastNamed_eq_some {l : List App} {k : String} {a : App} (h : lastNamed l k = some a) :
    a ∈ l ∧ a.GetName = k := by
  induction l with
  | nil => simp [lastNamed] at h
  | cons b l ih =>
    rw [lastNamed] at h
    cases hl : lastNamed l k with
    | some c =>
      rw [hl] at h
      simp only [Option.some.injEq] at h
      subst h
      exact ⟨List.mem_cons_of_mem _ (ih hl).1, (ih hl).2⟩
    | none =>
      rw [hl] at h
      by_cases hb : b.GetName = k
      · simp [hb] at h
        subst h
        exact ⟨List.mem_cons_self _ _, hb⟩
      · simp [hb] at h

theorem lastNamed_eq_none_iff (l : List App) (k : String) :
    lastNamed l k = none ↔ ∀ a ∈ l, a.GetName ≠ k := by
  induction l with
  | nil => simp [lastNamed]
  | cons b l ih =>
    rw [lastNamed]
    cases hl : lastNamed l k with
    | some c =>
      have hc := lastNamed_eq_some hl
      simp only [false_iff, reduceCtorEq]
      intro hall
      exact hall c (List.mem_cons_of_mem _ hc.1) hc.2
    | none =>
      have hall := ih.mp hl
      by_cases hb : b.GetName = k
      · simp [hb]
      · simp only [hb, if_false, true_iff]
        intro a ha
        rcases List.mem_cons.mp ha with rfl | ha
        · exact hb
        · exact hall a ha

theorem lastNamed_isSome_iff (l : List App) (k : String) :
    (lastNamed l k).isSome = true ↔ ∃ a ∈ l, a.GetName = k := by
  constructor
  · intro h
    obtain ⟨a, ha⟩ := Option.isSome_iff_exists.mp h
    exact ⟨a, lastNamed_eq_some ha⟩
  · rintro ⟨a, ha, hk⟩
    cases hl : lastNamed l k with
    | some c => rfl
    | none => exact absurd hk ((lastNamed_eq_none_iff l k).mp hl a ha)

theorem lastNamed_of_nodup {l : List App} (hn : (l.map App.GetName).Nodup) {a : App}
    (ha : a ∈ l) : lastNamed l a.GetName = some a := by
  induction l with
  | nil => simp at ha
  | cons b l ih =>
    rw [List.map_cons, List.nodup_cons] at hn
    rw [lastNamed]
    rcases List.mem_cons.mp ha with rfl | ha
    · have : lastNamed l a.GetName = none := by
        rw [lastNamed_eq_none_iff]
        intro c hc hcn
        exact hn.1 (hcn ▸ List.mem_map_of_mem _ hc)
      simp [this]
    · rw [ih hn.2 ha]

theorem lastNamed_filter (q : String → Bool) (l : List App) (k : String) :
    lastNamed (l.filter (fun e => q e.GetName)) k = if q k = true then lastNamed l k else none := by
  induction l with
  | nil => simp [lastNamed]
  | cons b l ih =>
    by_cases hb : q b.GetName = true
    · rw [List.filter_cons_of_pos (by simpa using hb), lastNamed, ih, lastNamed]
      by_cases hk : q k = true
      · simp [hk]
      · have : b.GetName ≠ k := fun h => hk (h ▸ hb)
        simp [hk, this]
    · rw [List.filter_cons_of_neg (by simpa using hb), ih, lastNamed]
      by_cases hk : q k = true
      · have : b.GetName ≠ k := fun h => hb (h ▸ hk)
        cases hl : lastNamed l k <;> simp [hk, this]
      · simp [hk]

/-! ## The two loops of `distributeAppOperations` -/

theorem indexApps_cons (a : App) (l : List App) (m : GoMap) :
    indexApps (a :: l) m = indexApps l (mapSet m a.GetName a) := rfl

theorem mapGet_indexApps (l : List App) (m : GoMap) (k : String) :
    mapGet (indexApps l m) k =
      match lastNamed l k with
      | some a => some a
      | none => mapGet m k := by
  induction l generalizing m with
  | nil => simp [indexApps, lastNamed]
  | cons b l ih =>
    rw [indexApps_cons, ih, lastNamed, mapGet_mapSet]
    cases hl : lastNamed l k with
    | some c => rfl
    | none => by_cases hb : b.GetName = k <;> simp [hb]

theorem mapKeys_indexApps_nodup (l : List App) (m : GoMap) (h : (mapKeys m).Nodup) :
    (mapKeys (indexApps l m)).Nodup := by
  induction l generalizing m with
  | nil => simpa [indexApps] using h
  | cons b l ih =>
    rw [indexApps_cons]
    exact ih _ (mapKeys_mapSet_nodup m _ _ h)

theorem mapGet_indexApps_nil (l : List App) (k : String) :
    mapGet (indexApps l []) k = lastNamed l k := by
  rw [mapGet_indexApps]
  cases lastNamed l k <;> simp [mapGet]

theorem mem_mapKeys_indexApps_nil (l : List App) (k : String) :
    k ∈ mapKeys (indexApps l []) ↔ k ∈ l.map App.GetName := by
  rw [mem_mapKeys_iff, mapHas, mapGet_indexApps_nil, lastNamed_isSome_iff]
  simp

theorem mapLen_indexApps_nil (l : List App) :
    mapLen (indexApps l []) = ((l.map App.GetName).dedup).length := by
  have hn : (mapKeys (indexApps l [])).Nodup :=
    mapKeys_indexApps_nodup l [] (by simp [mapKeys])
  have hperm : (mapKeys (indexApps l [])).Perm ((l.map App.GetName).dedup) := by
    rw [List.perm_ext_iff_of_nodup hn (List.nodup_dedup _)]
    intro k
    rw [mem_mapKeys_indexApps_nil, List.mem_dedup]
  have := hperm.length_eq
  simpa [mapLen, mapKeys] using this

theorem mapLen_indexApps_nil_of_nodup (l : List App) (h : (l.map App.GetName).Nodup) :
    mapLen (indexApps l []) = l.length := by
  rw [mapLen_indexApps_nil, List.Nodup.dedup h, List.length_map]

theorem foldl_distributeStep (c : GoMap) (l : List App) (u d : GoMap) :
    l.foldl (distributeStep c) (u, d) =
      (indexApps (l.filter (fun e => mapHas c e.GetName)) u,
       indexApps (l.filter (fun e => !mapHas c e.GetName)) d) := by
  induction l generalizing u d with
  | nil => simp [indexApps]
  | cons b l ih =>
    rw [List.foldl_cons]
    by_cases hb : mapHas c b.GetName = true
    · simp only [distributeStep, hb, if_true, ih]
      rw [List.filter_cons_of_pos (by simpa using hb),
        List.filter_cons_of_neg (by simp [hb]), indexApps_cons]
    · simp only [distributeStep, hb, if_false, ih]
      rw [List.filter_cons_of_neg (by simpa using hb),
        List.filter_cons_of_pos (by simpa using hb), indexApps_cons]
      simp

/-- The maps `distributeAppOperations` returns, as maps built by the first loop alone. -/
theorem distributeAppOperations_eq (existingApps newApps : List App) :
    distributeAppOperations existingApps newApps =
      (indexApps newApps [],
       indexApps (existingApps.filter (fun e => mapHas (indexApps newApps []) e.GetName)) [],
       indexApps (existingApps.filter (fun e => !mapHas (indexApps newApps []) e.GetName)) []) := by
  simp [distributeAppOperations, foldl_distributeStep]

theorem creates_get (existingApps newApps : List App) (k : String) :
    mapGet (distributeAppOperations existingApps newApps).1 k = lastNamed newApps k := by
  rw [distributeAppOperations_eq, mapGet_indexApps_nil]

theorem updates_get (existingApps newApps : List App) (k : String) :
    mapGet (distributeAppOperations existingApps newApps).2.1 k =
      if (lastNamed newApps k).isSome = true then lastNamed existingApps k else none := by
  rw [distributeAppOperations_eq, mapGet_indexApps_nil,
    lastNamed_filter (fun s => mapHas (indexApps newApps []) s), mapHas, mapGet_indexApps_nil]

theorem deletes_get (existingApps newApps : List App) (k : String) :
    mapGet (distributeAppOperations existingApps newApps).2.2 k =
      if (lastNamed newApps k).isSome = true then none else lastNamed existingApps k := by
  rw [distributeAppOperations_eq, mapGet_indexApps_nil,
    lastNamed_filter (fun s => !mapHas (indexApps newApps []) s), mapHas, mapGet_indexApps_nil]
  cases lastNamed newApps k <;> simp

theorem lastNamed_eq_some_iff_of_nodup {l : List App} (hn : (l.map App.GetName).Nodup)
    (k : String) (a : App) : lastNamed l k = some a ↔ a ∈ l ∧ a.GetName = k := by
  constructor
  · exact lastNamed_eq_some
  · rintro ⟨ha, rfl⟩
    exact lastNamed_of_nodup hn ha

theorem mapHas_creates (existingApps newApps : List App) (k : String) :
    mapHas (distributeAppOperations existingApps newApps).1 k = true ↔
      ∃ d ∈ newApps, d.GetName = k := by
  rw [mapHas, creates_get, lastNamed_isSome_iff]

theorem mapHas_updates (existingApps newApps : List App) (k : String) :
    mapHas (distributeAppOperations existingApps newApps).2.1 k = true ↔
      (∃ e ∈ existingApps, e.GetName = k) ∧ ∃ d ∈ newApps, d.GetName = k := by
  rw [mapHas, updates_get, ← lastNamed_isSome_iff, ← lastNamed_isSome_iff]
  cases lastNamed newApps k <;> simp

theorem mapHas_deletes (existingApps newApps : List App) (k : String) :
    mapHas (distributeAppOperations existingApps newApps).2.2 k = true ↔
      (∃ e ∈ existingApps, e.GetName = k) ∧ ¬ ∃ d ∈ newApps, d.GetName = k := by
  rw [mapHas, deletes_get, ← lastNamed_isSome_iff, ← lastNamed_isSome_iff]
  cases lastNamed newApps k <;> simp

/-- When no existing app carries the name of a new app, the second loop only fills
`deletes`, with every existing app in turn. -/
theorem distributeAppOperations_of_disjoint (existingApps newApps : List App)
    (h : ∀ e ∈ existingApps, ∀ d ∈ newApps, e.GetName ≠ d.GetName) :
    (distributeAppOperations existingApps newApps).2.1 = [] ∧
      (distributeAppOperations existingApps newApps).2.2 = indexApps existingApps [] := by
  have hno : ∀ e ∈ existingApps, mapHas (indexApps newApps []) e.GetName = false := by
    intro e he
    rw [mapHas, mapGet_indexApps_nil]
    have : lastNamed newApps e.GetName = none := by
      rw [lastNamed_eq_none_iff]
      intro d hd hk
      exact h e he d hd hk.symm
    simp [this]
  rw [distributeAppOperations_eq]
  constructor
  · have : existingApps.filter (fun e => mapHas (indexApps newApps []) e.GetName) = [] := by
      rw [List.filter_eq_nil_iff]
      intro e he
      simp [hno e he]
    rw [this]
    rfl
  · have : existingApps.filter (fun e => !mapHas (indexApps newApps []) e.GetName)
        = existingApps := by
      rw [List.filter_eq_self]
      intro e he
      simp [hno e he]
    rw [this]

/-! ## `distributeAppOperations`: the claims -/

/-- C1 (counterexample). For existing = {A(v1), B} and desired = {A(v2), C} the key `A` is in
the creates map although an existing app is named `A`: the equivalence of the claim fails at
`k = A`, the creates map is not `{C}`, and `A` is a key of both creates and updates. -/
theorem creates_keeps_matched_name :
    ¬ (mapHas (distributeAppOperations [appA1, appB] [appA2, appC]).1 "A" = true ↔
        ((∃ d ∈ [appA2, appC], d.GetName = "A") ∧ ¬ ∃ e ∈ [appA1, appB], e.GetName = "A")) ∧
    (distributeAppOperations [appA1, appB] [appA2, appC]).1 ≠ [("C", appC)] ∧
    mapHas (distributeAppOperations [appA1, appB] [appA2, appC]).2.1 "A" = true := by
  decide

/-- C1 (amended). For every existing list and every desired list, the creates map contains a
key `k` if and only if some desired app is named `k`, whether or not an existing app is named
`k`, and it holds the last desired app of that name. For existing = {A(v1), B} and desired =
{A(v2), C} the keys of creates are exactly `A` and `C`, with `A(v2)` under `A`, while updates
holds `A(v1)` under `A`. -/
theorem creates_has_iff_desired_named :
    (∀ (existingApps newApps : List App) (k : String),
      (mapHas (distributeAppOperations existingApps newApps).1 k = true ↔
        ∃ d ∈ newApps, d.GetName = k) ∧
      mapGet (distributeAppOperations existingApps newApps).1 k = lastNamed newApps k) ∧
    (∀ k : String, mapHas (distributeAppOperations [appA1, appB] [appA2, appC]).1 k = true ↔
      k = "A" ∨ k = "C") ∧
    mapGet (distributeAppOperations [appA1, appB] [appA2, appC]).1 "A" = some appA2 ∧
    mapGet (distributeAppOperations [appA1, appB] [appA2, appC]).1 "C" = some appC ∧
    mapGet (distributeAppOperations [appA1, appB] [appA2, appC]).2.1 "A" = some appA1 := by
  refine ⟨fun e n k => ⟨mapHas_creates e n k, creates_get e n k⟩, ?_, by decide, by decide,
    by decide⟩
  intro k
  rw [mapHas_creates]
  simp [appA2, appC, App.GetName, eq_comm]

/-- C2 (counterexample). For existing = {A(v1)} and desired = {A(v2)} no entry of updates
under `A` has the field values of the desired app and the identifier of the existing one:
the entry is `A(v1)`, whose fields differ from those of `A(v2)`. -/
theorem updates_entry_not_desired_fields :
    ¬ ∃ u : App, mapGet (distributeAppOperations [appA1] [appA2]).2.1 "A" = some u ∧
        u.Fields = appA2.Fields ∧ u.ID = appA1.ID := by
  rintro ⟨u, hu, hf, -⟩
  have h : mapGet (distributeAppOperations [appA1] [appA2]).2.1 "A" = some appA1 := by decide
  rw [h] at hu
  cases hu
  exact absurd hf (by decide)

/-- C2 (amended). For every existing list and desired list with unique names on each side, and
every name `k` carried by both an existing app `e` and a desired app `d`, the entry
`updates[k]` is the existing app `e` itself: its field values and its remote identifier are
those of `e`. The desired app `d` is the entry `creates[k]`, and `k` is not a key of
deletes. -/
theorem updates_entry_is_existing (existingApps newApps : List App)
    (hE : (existingApps.map App.GetName).Nodup) (hD : (newApps.map App.GetName).Nodup)
    (e d : App) (k : String) (he : e ∈ existingApps) (hd : d ∈ newApps)
    (hek : e.GetName = k) (hdk : d.GetName = k) :
    mapGet (distributeAppOperations existingApps newApps).2.1 k = some e ∧
    mapGet (distributeAppOperations existingApps newApps).1 k = some d ∧
    mapGet (distributeAppOperations existingApps newApps).2.2 k = none := by
  have h1 : lastNamed newApps k = some d := hdk ▸ lastNamed_of_nodup hD hd
  have h2 : lastNamed existingApps k = some e := hek ▸ lastNamed_of_nodup hE he
  rw [updates_get, creates_get, deletes_get, h1, h2]
  simp

/-- C2 (witness). Existing = {A(v1), B} and desired = {A(v2), C}, at the shared name `A`. -/
theorem updates_entry_is_existing_witness :
    mapGet (distributeAppOperations [appA1, appB] [appA2, appC]).2.1 "A" = some appA1 ∧
    mapGet (distributeAppOperations [appA1, appB] [appA2, appC]).1 "A" = some appA2 ∧
    mapGet (distributeAppOperations [appA1, appB] [appA2, appC]).2.2 "A" = none :=
  updates_entry_is_existing [appA1, appB] [appA2, appC] (by decide) (by decide)
    appA1 appA2 "A" (by decide) (by decide) (by decide) (by decide)

/-- C3 (the code at the failing input). With the desired list {app-a, app-a} the second
app overwrites the first in creates: `app-a` is a key of creates, the first app is stored
nowhere, and nothing is reported as a conflict (the function returns creates, updates and
deletes only). With an existing app named `app-a` as well, `app-a` is a key of both creates
and updates. -/
theorem duplicate_desired_name_overwritten :
    distributeAppOperations [] [dupFirst, dupSecond] = ([("app-a", dupSecond)], [], []) ∧
    mapHas (distributeAppOperations [] [dupFirst, dupSecond]).1 "app-a" = true ∧
    mapGet (distributeAppOperations [] [dupFirst, dupSecond]).1 "app-a" ≠ some dupFirst ∧
    distributeAppOperations [dupRemote] [dupFirst, dupSecond]
      = ([("app-a", dupSecond)], [("app-a", dupRemote)], []) ∧
    mapHas (distributeAppOperations [dupRemote] [dupFirst, dupSecond]).1 "app-a" = true ∧
    mapHas (distributeAppOperations [dupRemote] [dupFirst, dupSecond]).2.1 "app-a" = true := by
  decide

/-- C4. For all existing and desired lists whose names are unique within each list and that
share no name, creates is the desired set (each desired app under its name, nothing else, as
many entries as desired apps), deletes is the existing set (each existing app under its name,
nothing else, as many entries as existing apps), and updates is empty. -/
theorem disjoint_plan (existingApps newApps : List App)
    (hE : (existingApps.map App.GetName).Nodup) (hD : (newApps.map App.GetName).Nodup)
    (hdisj : ∀ e ∈ existingApps, ∀ d ∈ newApps, e.GetName ≠ d.GetName) :
    (∀ (k : String) (a : App),
      mapGet (distributeAppOperations existingApps newApps).1 k = some a ↔
        a ∈ newApps ∧ a.GetName = k) ∧
    mapLen (distributeAppOperations existingApps newApps).1 = newApps.length ∧
    (∀ (k : String) (a : App),
      mapGet (distributeAppOperations existingApps newApps).2.2 k = some a ↔
        a ∈ existingApps ∧ a.GetName = k) ∧
    mapLen (distributeAppOperations existingApps newApps).2.2 = existingApps.length ∧
    (distributeAppOperations existingApps newApps).2.1 = [] := by
  obtain ⟨hu, hdel⟩ := distributeAppOperations_of_disjoint existingApps newApps hdisj
  refine ⟨?_, ?_, ?_, ?_, hu⟩
  · intro k a
    rw [creates_get]
    exact lastNamed_eq_some_iff_of_nodup hD k a
  · rw [distributeAppOperations_eq]
    exact mapLen_indexApps_nil_of_nodup newApps hD
  · intro k a
    rw [hdel, mapGet_indexApps_nil]
    exact lastNamed_eq_some_iff_of_nodup hE k a
  · rw [hdel]
    exact mapLen_indexApps_nil_of_nodup existingApps hE

/-- C4 (witness). Existing = {A, B} and desired = {C, app} share no name. -/
theorem disjoint_plan_witness :
    (∀ (k : String) (a : App),
      mapGet (distributeAppOperations [appA1, appB] [appC, appLower]).1 k = some a ↔
        a ∈ [appC, appLower] ∧ a.GetName = k) ∧
    mapLen (distributeAppOperations [appA1, appB] [appC, appLower]).1
      = [appC, appLower].length ∧
    (∀ (k : String) (a : App),
      mapGet (distributeAppOperations [appA1, appB] [appC, appLower]).2.2 k = some a ↔
        a ∈ [appA1, appB] ∧ a.GetName = k) ∧
    mapLen (distributeAppOperations [appA1, appB] [appC, appLower]).2.2
      = [appA1, appB].length ∧
    (distributeAppOperations [appA1, appB] [appC, appLower]).2.1 = [] :=
  disjoint_plan [appA1, appB] [appC, appLower] (by decide) (by decide) (by decide)

/-- C5 (counterexample). With two existing apps named `A` and no desired app, the first of
them is an existing app that is stored in neither updates nor deletes: under its name, deletes
holds the second one. -/
theorem overwritten_existing_app_in_no_map :
    ¬ ∀ e ∈ [appA1, appA1Twin],
        mapGet (distributeAppOperations [appA1, appA1Twin] []).2.1 e.GetName = some e ∨
        mapGet (distributeAppOperations [appA1, appA1Twin] []).2.2 e.GetName = some e := by
  decide

/-- C5 (amended). For every existing list and every desired list, the key sets of updates and
deletes are disjoint, their union is exactly the set of existing names, and the app stored
under each such key is the last existing app that carries that name. Hence, when the existing
names are unique, every existing app appears in exactly one of the two maps, under its
name. -/
theorem updates_deletes_partition_existing_names (existingApps newApps : List App) :
    (∀ k : String,
      ¬ (mapHas (distributeAppOperations existingApps newApps).2.1 k = true ∧
          mapHas (distributeAppOperations existingApps newApps).2.2 k = true)) ∧
    (∀ k : String,
      (mapHas (distributeAppOperations existingApps newApps).2.1 k = true ∨
          mapHas (distributeAppOperations existingApps newApps).2.2 k = true) ↔
        ∃ e ∈ existingApps, e.GetName = k) ∧
    (∀ (k : String) (a : App),
      (mapGet (distributeAppOperations existingApps newApps).2.1 k = some a ∨
          mapGet (distributeAppOperations existingApps newApps).2.2 k = some a) →
        lastNamed existingApps k = some a) ∧
    ((existingApps.map App.GetName).Nodup → ∀ e ∈ existingApps,
      (mapGet (distributeAppOperations existingApps newApps).2.1 e.GetName = some e ∧
          mapGet (distributeAppOperations existingApps newApps).2.2 e.GetName = none) ∨
      (mapGet (distributeAppOperations existingApps newApps).2.1 e.GetName = none ∧
          mapGet (distributeAppOperations existingApps newApps).2.2 e.GetName = some e)) := by
  refine ⟨?_, ?_, ?_, ?_⟩
  · intro k h
    exact ((mapHas_deletes _ _ _).mp h.2).2 ((mapHas_updates _ _ _).mp h.1).2
  · intro k
    rw [mapHas_updates, mapHas_deletes]
    constructor
    · rintro (h | h) <;> exact h.1
    · intro h
      by_cases hd : ∃ d ∈ newApps, d.GetName = k
      · exact Or.inl ⟨h, hd⟩
      · exact Or.inr ⟨h, hd⟩
  · intro k a
    rw [updates_get, deletes_get]
    cases lastNamed newApps k <;> simp
  · intro hn e he
    rw [updates_get, deletes_get, lastNamed_of_nodup hn he]
    cases lastNamed newApps e.GetName <;> simp

/-- C5 (witness). With the unique existing names of {A(v1), B}, the existing app `A(v1)` is in
exactly one of the two maps. -/
theorem updates_deletes_partition_existing_names_witness :
    (mapGet (distributeAppOperations [appA1, appB] [appA2, appC]).2.1 "A" = some appA1 ∧
        mapGet (distributeAppOperations [appA1, appB] [appA2, appC]).2.2 "A" = none) ∨
    (mapGet (distributeAppOperations [appA1, appB] [appA2, appC]).2.1 "A" = none ∧
        mapGet (distributeAppOperations [appA1, appB] [appA2, appC]).2.2 "A" = some appA1) :=
  (updates_deletes_partition_existing_names [appA1, appB] [appA2, appC]).2.2.2
    (by decide) appA1 (by decide)

/-- C6 (counterexample). With two existing apps named `A` and an empty desired list, deletes
has one entry while there are two existing resources. -/
theorem empty_desired_deletes_fewer_entries :
    mapLen (distributeAppOperations [appA1, appA1Twin] []).2.2 = 1 ∧
    [appA1, appA1Twin].length = 2 ∧
    mapLen (distributeAppOperations [appA1, appA1Twin] []).2.2
      ≠ [appA1, appA1Twin].length := by
  decide

/-- C6 (amended). For every existing list, `distributeAppOperations` called with an empty
desired list produces an all-delete plan: creates and updates are empty, every existing name
is a key of deletes, which holds under it the last existing app of that name, and the number
of entries in deletes equals the number of distinct existing names. When the existing names
are unique, every existing app is in deletes and that number is the number of existing
resources. -/
theorem empty_desired_all_delete (existingApps : List App) :
    (distributeAppOperations existingApps []).1 = [] ∧
    (distributeAppOperations existingApps []).2.1 = [] ∧
    (∀ e ∈ existingApps, mapHas (distributeAppOperations existingApps []).2.2 e.GetName = true) ∧
    (∀ k : String,
      mapGet (distributeAppOperations existingApps []).2.2 k = lastNamed existingApps k) ∧
    mapLen (distributeAppOperations existingApps []).2.2
      = ((existingApps.map App.GetName).dedup).length ∧
    ((existingApps.map App.GetName).Nodup →
      mapLen (distributeAppOperations existingApps []).2.2 = existingApps.length ∧
      ∀ e ∈ existingApps,
        mapGet (distributeAppOperations existingApps []).2.2 e.GetName = some e) := by
  obtain ⟨hu, hdel⟩ := distributeAppOperations_of_disjoint existingApps []
    (fun _ _ d hd => absurd hd (List.not_mem_nil d))
  refine ⟨rfl, hu, ?_, ?_, ?_, ?_⟩
  · intro e he
    rw [mapHas_deletes]
    exact ⟨⟨e, he, rfl⟩, by simp⟩
  · intro k
    rw [hdel, mapGet_indexApps_nil]
  · rw [hdel, mapLen_indexApps_nil]
  · intro hn
    refine ⟨?_, ?_⟩
    · rw [hdel]
      exact mapLen_indexApps_nil_of_nodup existingApps hn
    · intro e he
      rw [hdel, mapGet_indexApps_nil]
      exact lastNamed_of_nodup hn he

/-- C6 (witness). With the unique existing names of {A(v1), B} and an empty desired list,
deletes has two entries and holds both existing apps. -/
theorem empty_desired_all_delete_witness :
    mapLen (distributeAppOperations [appA1, appB] []).2.2 = [appA1, appB].length ∧
    ∀ e ∈ [appA1, appB],
      mapGet (distributeAppOperations [appA1, appB] []).2.2 e.GetName = some e :=
  (empty_desired_all_delete [appA1, appB]).2.2.2.2.2 (by decide)

/-- C8 (counterexample). With two existing apps named `A` and no desired app, no desired app
is named `A`, yet the first existing app is not stored in deletes (nor in updates): the entry
under `A` is the second one. -/
theorem overwritten_existing_app_not_in_deletes :
    ¬ ∀ e ∈ [appA1, appA1Twin],
        (mapGet (distributeAppOperations [appA1, appA1Twin] []).2.2 e.GetName = some e ↔
          ¬ ∃ d ∈ ([] : List App), d.GetName = e.GetName) := by
  decide

/-- C8 (amended). For every existing list and desired list, an existing name `k` is a key of
deletes if and only if no desired app has a name equal to `k` as a string, and a key of
updates if and only if some desired app has; the app stored under it is the last existing app
named `k`. Hence an existing app that is the last of its name, and so every existing app when
the existing names are unique, is itself stored in deletes if and only if no desired app has
exactly its name, and in updates otherwise. Names that differ in letter case, or one of which
is an initial segment of the other, do not match: existing `App` with desired `app` gives
deletes = {App}, creates = {app} and empty updates, and `app` against `app-a` goes to deletes
in either direction. -/
theorem deletes_iff_no_exact_name :
    (∀ (existingApps newApps : List App) (k : String), (∃ e ∈ existingApps, e.GetName = k) →
      ((mapHas (distributeAppOperations existingApps newApps).2.2 k = true ↔
          ¬ ∃ d ∈ newApps, d.GetName = k) ∧
        (mapHas (distributeAppOperations existingApps newApps).2.1 k = true ↔
          ∃ d ∈ newApps, d.GetName = k) ∧
        ∃ e ∈ existingApps, e.GetName = k ∧ lastNamed existingApps k = some e ∧
          (mapGet (distributeAppOperations existingApps newApps).2.2 k = some e ∨
            mapGet (distributeAppOperations existingApps newApps).2.1 k = some e))) ∧
    (∀ (existingApps newApps : List App) (e : App), e ∈ existingApps →
      lastNamed existingApps e.GetName = some e →
        ((mapGet (distributeAppOperations existingApps newApps).2.2 e.GetName = some e ↔
            ¬ ∃ d ∈ newApps, d.GetName = e.GetName) ∧
          (mapGet (distributeAppOperations existingApps newApps).2.1 e.GetName = some e ↔
            ∃ d ∈ newApps, d.GetName = e.GetName))) ∧
    (∀ (existingApps newApps : List App), (existingApps.map App.GetName).Nodup →
      ∀ e ∈ existingApps,
        ((mapGet (distributeAppOperations existingApps newApps).2.2 e.GetName = some e ↔
            ¬ ∃ d ∈ newApps, d.GetName = e.GetName) ∧
          (mapGet (distributeAppOperations existingApps newApps).2.1 e.GetName = some e ↔
            ∃ d ∈ newApps, d.GetName = e.GetName))) ∧
    distributeAppOperations [appUpper] [appLower]
      = ([("app", appLower)], [], [("App", appUpper)]) ∧
    (distributeAppOperations [appLower] [appLonger]).2.2 = [("app", appLower)] ∧
    (distributeAppOperations [appLonger] [appLower]).2.2 = [("app-a", appLonger)] := by
  have perApp : ∀ (existingApps newApps : List App) (e : App),
      lastNamed existingApps e.GetName = some e →
        ((mapGet (distributeAppOperations existingApps newApps).2.2 e.GetName = some e ↔
            ¬ ∃ d ∈ newApps, d.GetName = e.GetName) ∧
          (mapGet (distributeAppOperations existingApps newApps).2.1 e.GetName = some e ↔
            ∃ d ∈ newApps, d.GetName = e.GetName)) := by
    intro existingApps newApps e hlast
    rw [updates_get, deletes_get, hlast, ← lastNamed_isSome_iff]
    cases lastNamed newApps e.GetName <;> simp
  refine ⟨?_, fun ex nw e _ hlast => perApp ex nw e hlast,
    fun ex nw hn e he => perApp ex nw e (lastNamed_of_nodup hn he),
    by decide, by decide, by decide⟩
  intro existingApps newApps k hk
  refine ⟨?_, ?_, ?_⟩
  · rw [mapHas_deletes]
    exact ⟨fun h => h.2, fun h => ⟨hk, h⟩⟩
  · rw [mapHas_updates]
    exact ⟨fun h => h.2, fun h => ⟨hk, h⟩⟩
  · obtain ⟨a, ha⟩ := Option.isSome_iff_exists.mp ((lastNamed_isSome_iff _ _).mpr hk)
    refine ⟨a, (lastNamed_eq_some ha).1, (lastNamed_eq_some ha).2, ha, ?_⟩
    rw [updates_get, deletes_get, ha]
    cases lastNamed newApps k <;> simp

/-- C8 (witness). With the unique existing names of {A(v1), B} and desired = {A(v2), C}, the
existing app `B` is stored in deletes, no desired app being named `B`, and the existing app
`A(v1)` is stored in updates, the desired app `A(v2)` having its name. -/
theorem deletes_iff_no_exact_name_witness :
    ((mapGet (distributeAppOperations [appA1, appB] [appA2, appC]).2.2 appB.GetName = some appB ↔
        ¬ ∃ d ∈ [appA2, appC], d.GetName = appB.GetName) ∧
      (mapGet (distributeAppOperations [appA1, appB] [appA2, appC]).2.1 appB.GetName
          = some appB ↔ ∃ d ∈ [appA2, appC], d.GetName = appB.GetName)) ∧
    ((mapGet (distributeAppOperations [appA1, appB] [appA2, appC]).2.2 appA1.GetName
          = some appA1 ↔ ¬ ∃ d ∈ [appA2, appC], d.GetName = appA1.GetName) ∧
      (mapGet (distributeAppOperations [appA1, appB] [appA2, appC]).2.1 appA1.GetName
          = some appA1 ↔ ∃ d ∈ [appA2, appC], d.GetName = appA1.GetName)) ∧
    mapGet (distributeAppOperations [appA1, appB] [appA2, appC]).2.2 "B" = some appB ∧
    mapGet (distributeAppOperations [appA1, appB] [appA2, appC]).2.1 "A" = some appA1 :=
  ⟨deletes_iff_no_exact_name.2.2.1 [appA1, appB] [appA2, appC] (by decide) appB (by decide),
    deletes_iff_no_exact_name.2.2.1 [appA1, appB] [appA2, appC] (by decide) appA1 (by decide),
    by decide, by decide⟩

/-! ## `ImportApps` -/

/-- C7 (counterexample). Existing = {A(v1), B}, desired = {A(v2), C}, and the remote rejects
the deletion of `B` only: two creates and one update succeeded, yet `ImportApps` returns the
all-zero `ImportChanges` with the error, not the counts of what succeeded. -/
theorem import_error_resets_counts :
    ImportApps ([appA1, appB], none) [appA2, appC] scenarioDiff scenarioSlice scenarioProcess
      = (⟨0, 0, 0⟩, some ⟨"operation failed"⟩) ∧
    scenarioSucceeded
        (scenarioSlice (distributeAppOperations [appA1, appB] [appA2, appC]).1)
        (scenarioSlice (scenarioDiff (distributeAppOperations [appA1, appB] [appA2, appC]).2.1
          (distributeAppOperations [appA1, appB] [appA2, appC]).1))
        (scenarioSlice (distributeAppOperations [appA1, appB] [appA2, appC]).2.2)
      = ⟨2, 1, 0⟩ ∧
    (ImportApps ([appA1, appB], none) [appA2, appC] scenarioDiff scenarioSlice
        scenarioProcess).1 ≠ ⟨2, 1, 0⟩ := by
  decide

/-- C7 (amended). For every run of `ImportApps` in which the existing apps were fetched and
`processAppOperations` reports an error, the caller receives that error together with the
all-zero `ImportChanges`: the counts of the operations that succeeded are not reported. -/
theorem import_error_returns_zero_changes (existingApps newApps : List App)
    (diffApps : GoMap → GoMap → GoMap) (appsMapToSlice : GoMap → List App)
    (processAppOperations : List App → List App → List App → Option GoError) (err : GoError)
    (h : processAppOperations
        (appsMapToSlice (distributeAppOperations existingApps newApps).1)
        (appsMapToSlice (diffApps (distributeAppOperations existingApps newApps).2.1
          (distributeAppOperations existingApps newApps).1))
        (appsMapToSlice (distributeAppOperations existingApps newApps).2.2) = some err) :
    ImportApps (existingApps, none) newApps diffApps appsMapToSlice processAppOperations
      = (⟨0, 0, 0⟩, some err) := by
  simp only [ImportApps]
  rw [h]

/-- C7 (witness). The scenario in which the remote rejects the deletion of `B`. -/
theorem import_error_returns_zero_changes_witness :
    ImportApps ([appA1, appB], none) [appA2, appC] scenarioDiff scenarioSlice scenarioProcess
      = (⟨0, 0, 0⟩, some ⟨"operation failed"⟩) :=
  import_error_returns_zero_changes [appA1, appB] [appA2, appC] scenarioDiff scenarioSlice
    scenarioProcess ⟨"operation failed"⟩ (by decide)

/-! ## `listActionsTriggers` and `getActionByName` -/

theorem foldl_append_if (p : trigger → Prop) [DecidablePred p] (l acc : List trigger) :
    l.foldl (fun result tt => if p tt then result ++ [tt] else result) acc
      = acc ++ l.filter (fun tt => decide (p tt)) := by
  induction l generalizing acc with
  | nil => simp
  | cons t l ih =>
    rw [List.foldl_cons, ih]
    by_cases ht : p t <;> simp [ht]

theorem loop_eq_find (name : String) (l : List action) :
    getActionByName.loop name l = l.find? (fun a => decide (a.Name = name)) := by
  induction l with
  | nil => rfl
  | cons a l ih =>
    by_cases ha : a.Name = name <;> simp [getActionByName.loop, ha, ih]

theorem loop_eq_none_iff (name : String) (l : List action) :
    getActionByName.loop name l = none ↔ ∀ a ∈ l, a.Name ≠ name := by
  rw [loop_eq_find, List.find?_eq_none]
  simp

theorem loop_first_match (name : String) (pre post : List action) (a : action)
    (ha : a.Name = name) (hpre : ∀ b ∈ pre, b.Name ≠ name) :
    getActionByName.loop name (pre ++ a :: post) = some a := by
  induction pre with
  | nil => simp [getActionByName.loop, ha]
  | cons b pre ih =>
    have hb : b.Name ≠ name := hpre b (List.mem_cons_self _ _)
    rw [List.cons_append, getActionByName.loop, if_neg hb]
    exact ih (fun c hc => hpre c (List.mem_cons_of_mem _ hc))

/-- C9. When the request succeeds, `listActionsTriggers` returns a non-nil slice that is
exactly the triggers of the payload whose `Status` is `CURRENT`, unchanged and in their
original order (the filter of the payload), so the empty non-nil slice when none is current;
when the request fails it returns the error and the nil slice. -/
theorem listActionsTriggers_filters_current :
    (∀ payload : GoSlice trigger,
      listActionsTriggers (none, payload)
        = (some (payload.elems.filter (fun tt => decide (tt.Status = "CURRENT"))), none)) ∧
    (∀ payload : GoSlice trigger, (∀ tt ∈ payload.elems, tt.Status ≠ "CURRENT") →
      listActionsTriggers (none, payload) = (some [], none)) ∧
    (∀ (err : GoError) (payload : GoSlice trigger),
      listActionsTriggers (some err, payload) = (none, some err)) := by
  have key : ∀ payload : GoSlice trigger,
      listActionsTriggers (none, payload)
        = (some (payload.elems.filter (fun tt => decide (tt.Status = "CURRENT"))), none) := by
    intro payload
    simp only [listActionsTriggers, statusCurrent]
    rw [foldl_append_if (fun tt => tt.Status = "CURRENT")]
    simp
  refine ⟨key, ?_, fun err payload => rfl⟩
  intro payload hnone
  rw [key, List.filter_eq_nil_iff.mpr]
  intro tt htt
  simpa using hnone tt htt

/-- C9 (witness). A payload with a deprecated trigger between two current ones, and a payload
without any current trigger. -/
theorem listActionsTriggers_filters_current_witness :
    listActionsTriggers (none, some sampleTriggers)
      = (some [⟨"post-login", "CURRENT", "v2"⟩, ⟨"pre-user-registration", "CURRENT", "v1"⟩],
          none) ∧
    listActionsTriggers (none, some [⟨"post-login", "DEPRECATED", "v1"⟩]) = (some [], none) :=
  ⟨(listActionsTriggers_filters_current.1 (some sampleTriggers)).trans (by decide),
    listActionsTriggers_filters_current.2.1 (some [⟨"post-login", "DEPRECATED", "v1"⟩])
      (by decide)⟩

/-- C10. For every action list returned by `listActions` and every name `n`,
`getActionByName` returns without error if and only if some action of the list has `Name`
equal to `n`, and then it returns the first such action in list order; otherwise it returns
the zero action and the error `Unable to find action with name: n`. An error of
`listActions` is returned unchanged with the zero action. -/
theorem getActionByName_first_match :
    (∀ (actions : GoSlice action) (n : String),
      (listActions (none, actions) = (actions, none)) ∧
      ((getActionByName (none, actions) n).2 = none ↔ ∃ a ∈ actions.elems, a.Name = n)) ∧
    (∀ (actions : GoSlice action) (n : String) (pre post : List action) (a : action),
      actions.elems = pre ++ a :: post → a.Name = n → (∀ b ∈ pre, b.Name ≠ n) →
        getActionByName (none, actions) n = (a, none)) ∧
    (∀ (actions : GoSlice action) (n : String), (∀ a ∈ actions.elems, a.Name ≠ n) →
      getActionByName (none, actions) n
        = (action.zero, some ⟨"Unable to find action with name: " ++ n⟩)) ∧
    (∀ (err : GoError) (actions : GoSlice action) (n : String),
      listActions (some err, actions) = (none, some err) ∧
      getActionByName (some err, actions) n = (action.zero, some err)) := by
  refine ⟨?_, ?_, ?_, fun err actions n => ⟨rfl, rfl⟩⟩
  · intro actions n
    refine ⟨rfl, ?_⟩
    simp only [getActionByName, listActions]
    cases hl : getActionByName.loop n actions.elems with
    | some a =>
      simp only [true_iff]
      by_contra hno
      have : getActionByName.loop n actions.elems = none := by
        rw [loop_eq_none_iff]
        intro b hb hbn
        exact hno ⟨b, hb, hbn⟩
      rw [this] at hl
      cases hl
    | none =>
      simp only [reduceCtorEq, false_iff]
      rintro ⟨b, hb, hbn⟩
      exact (loop_eq_none_iff n _).mp hl b hb hbn
  · intro actions n pre post a hsplit ha hpre
    simp only [getActionByName, listActions]
    rw [hsplit, loop_first_match n pre post a ha hpre]
  · intro actions n hno
    simp only [getActionByName, listActions]
    rw [(loop_eq_none_iff n _).mpr hno]

/-- C10 (witness). In a list with two actions named `deploy` the first one is returned, and
a name carried by no action gives the error. -/
theorem getActionByName_first_match_witness :
    getActionByName (none, some sampleActions) "deploy" = (⟨"act-2", "deploy"⟩, none) ∧
    getActionByName (none, some sampleActions) "test"
      = (action.zero, some ⟨"Unable to find action with name: " ++ "test"⟩) :=
  ⟨getActionByName_first_match.2.1 (some sampleActions) "deploy" [⟨"act-1", "build"⟩]
      [⟨"act-3", "deploy"⟩] ⟨"act-2", "deploy"⟩ rfl rfl (by decide),
    getActionByName_first_match.2.2.1 (some sampleActions) "test" (by decide)⟩

end Auth0Cli
